import Mathlib

/-!
Formal model of the bybit_scalping_bot repository's backtesting core:
scalar technical indicators, the pandas-style batch indicators, the
per-strategy entry/exit evaluators, the single-position backtest state
machine, and the performance aggregator.  Each definition is a shallow
embedding of one Python function, named after it where possible.
Rational numbers stand in for Python floats wherever the source does only
field arithmetic; the Bollinger computations take a real square root and
are therefore modelled over the reals.
-/

/-- Python `xs[-n:]` (for `1 ≤ n ≤ xs.length`): the last `n` elements. -/
def lastN {β : Type} (n : ℕ) (xs : List β) : List β :=
  xs.drop (xs.length - n)

section ScalarIndicators

variable {α : Type} [LinearOrderedField α]

/-- The successive deltas `prices[i] - prices[i-1]` (source:
`coinone_strategy_backtest.py` lines 47-48, the loop
`for i in range(1, len(prices)): change = prices[i] - prices[i-1]`). -/
def priceChanges (prices : List α) : List α :=
  (prices.zip prices.tail).map (fun pq => pq.2 - pq.1)

/-- The per-step gains: `change if change > 0 else 0`
(`coinone_strategy_backtest.py` lines 49-53). -/
def rsiGains (prices : List α) : List α :=
  (priceChanges prices).map (fun c => if c > 0 then c else 0)

/-- The per-step losses: `abs(change) if change <= 0 else 0`
(`coinone_strategy_backtest.py` lines 49-54). -/
def rsiLosses (prices : List α) : List α :=
  (priceChanges prices).map (fun c => if c > 0 then 0 else -c)

/-- `avg_gain = sum(gains[-period:]) / period` (line 56). -/
def rsiAvgGain (prices : List α) (period : ℕ) : α :=
  (lastN period (rsiGains prices)).sum / period

/-- `avg_loss = sum(losses[-period:]) / period` (line 57). -/
def rsiAvgLoss (prices : List α) (period : ℕ) : α :=
  (lastN period (rsiLosses prices)).sum / period

/-- `calculate_rsi` of `coinone_strategy_backtest.py` lines 39-64 (the
`debug_bot_logic.py` copy at lines 31-52 computes the same values via
`max(0, change)`): `None` when fewer than `period + 1` prices, `100` when
the average loss is zero, otherwise `100 - 100/(1 + rs)`. -/
def calculate_rsi (prices : List α) (period : ℕ) : Option α :=
  if prices.length < period + 1 then none
  else if rsiAvgLoss prices period = 0 then some 100
  else some (100 - 100 / (1 + rsiAvgGain prices period / rsiAvgLoss prices period))

/-- One step of the scalar EMA recurrence
`ema = (price - ema) * multiplier + ema` with `multiplier = 2/(period+1)`
(`coinone_strategy_backtest.py` lines 72-76). -/
def emaStep (period : ℕ) (e p : α) : α :=
  (p - e) * (2 / ((period : α) + 1)) + e

/-- `calculate_ema` of `coinone_strategy_backtest.py` lines 66-78 (identical
in `debug_bot_logic.py` lines 54-66): `None` when fewer than `period`
prices, otherwise seed with the simple mean of the first `period` prices and
fold the recurrence over the remaining prices. -/
def calculate_ema (prices : List α) (period : ℕ) : Option α :=
  if prices.length < period then none
  else some (List.foldl (emaStep period) ((prices.take period).sum / period)
              (prices.drop period))

/-- `calculate_volume_ma` of `coinone_strategy_backtest.py` lines 95-99:
`None` when fewer than `period` volumes, else the mean of the last `period`. -/
def calculate_volume_ma (volumes : List α) (period : ℕ) : Option α :=
  if volumes.length < period then none
  else some ((lastN period volumes).sum / period)

/-- Market regime, as classified by `detect_trend`. -/
inductive Trend
  | uptrend
  | downtrend
  | sideways
deriving DecidableEq

/-- `detect_trend` of `coinone_strategy_backtest.py` lines 101-113 (identical
in `debug_bot_logic.py` lines 89-101): uptrend needs `ema50 > ema200`,
`price > ema50` and price at least 0.5% above `ema50`; downtrend is the
mirror image; otherwise sideways. -/
def detect_trend (ema50 ema200 price : α) : Trend :=
  if ema50 > ema200 ∧ price > ema50 ∧ ((price - ema50) / ema50) * 100 > 1/2 then
    .uptrend
  else if ema50 < ema200 ∧ price < ema50 ∧ ((ema50 - price) / ema50) * 100 > 1/2 then
    .downtrend
  else .sideways

end ScalarIndicators

/-- Batch EMA series in the style of pandas
`Series.ewm(span=period, adjust=False).mean()` (used by `calculate_ema` of
`coinone_xrp_backtest.py` lines 114-118): with `alpha = 2/(span+1)`, the
series starts at the first price and obeys
`y[i] = alpha * x[i] + (1 - alpha) * y[i-1]`; it is defined at every index. -/
def ewm_mean (prices : List ℚ) (span : ℕ) : List ℚ :=
  match prices with
  | [] => []
  | x :: xs =>
      List.scanl (fun e p => (2 / ((span : ℚ) + 1)) * p + (1 - 2 / ((span : ℚ) + 1)) * e)
        x xs

/-- Batch form of the scalar EMA: `none` before index `period - 1`, the
simple mean of the first `period` prices at index `period - 1`, then the
`emaStep` recurrence.  Computing this series in one pass is the batch
counterpart of re-running `calculate_ema` on every prefix. -/
def ema_batch (prices : List ℚ) (period : ℕ) : List (Option ℚ) :=
  if prices.length < period then List.replicate prices.length none
  else
    List.replicate (period - 1) none ++
      (List.scanl (emaStep period) ((prices.take period).sum / period)
        (prices.drop period)).map some

/-- Population variance of a list about its mean (divisor: the length). -/
noncomputable def popVariance (xs : List ℝ) : ℝ :=
  (xs.map (fun x => (x - xs.sum / (xs.length : ℝ)) ^ 2)).sum / (xs.length : ℝ)

/-- Sample variance of a list about its mean (divisor: length minus one),
the quantity under the square root in Python's `statistics.stdev` and in
pandas `rolling(...).std()` (both use `ddof = 1`). -/
noncomputable def sampleVariance (xs : List ℝ) : ℝ :=
  (xs.map (fun x => (x - xs.sum / (xs.length : ℝ)) ^ 2)).sum / ((xs.length : ℝ) - 1)

/-- `calculate_bollinger_bands` of `coinone_strategy_backtest.py` lines 80-93
(identical in `debug_bot_logic.py` lines 68-81): over the last `period`
closes, the middle band is the simple mean, the variance divides by
`period`, `std = variance ** 0.5`, and the result is
`(upper, middle, lower) = (middle + std*k, middle, middle - std*k)`;
`(None, None, None)` when fewer than `period` prices. -/
noncomputable def calculate_bollinger_bands (prices : List ℝ) (period : ℕ) (k : ℝ) :
    Option (ℝ × ℝ × ℝ) :=
  if prices.length < period then none
  else
    let recent := lastN period prices
    let middle := recent.sum / (period : ℝ)
    let variance := (recent.map (fun p => (p - middle) ^ 2)).sum / (period : ℝ)
    let std := Real.sqrt variance
    some (middle + std * k, middle, middle - std * k)

/-- Result record of `ComprehensiveAnalyzer.calculate_bollinger_bands`
(the derived boolean convenience fields `squeeze`, `near_lower_band`,
`near_upper_band` and the echoed `current_price` are omitted). -/
structure BBStat where
  upper_band : ℝ
  middle_band : ℝ
  lower_band : ℝ
  band_width : ℝ
  bb_position : ℝ

namespace ComprehensiveAnalyzer

/-- `ComprehensiveAnalyzer.calculate_bollinger_bands` of
`analysis_comprehensive.py` lines 134-163: mean of the last `period`
closes via `statistics.mean`, standard deviation via `statistics.stdev`
(sample standard deviation, divisor `n - 1`) when the window has more than
one element, bands `sma ± std*k`, `band_width = (upper-lower)/sma * 100`
when `sma > 0`, and `bb_position = (cur-lower)/(upper-lower) * 100` when the
band range is positive (else 50); `{}` (here `none`) on short input. -/
noncomputable def calculate_bollinger_bands (closes : List ℝ) (period : ℕ) (k : ℝ) :
    Option BBStat :=
  if closes.length < period then none
  else
    let recent := lastN period closes
    let sma := recent.sum / (recent.length : ℝ)
    let std := if 1 < recent.length then
        Real.sqrt ((recent.map (fun x => (x - sma) ^ 2)).sum / ((recent.length : ℝ) - 1))
      else 0
    let upper := sma + std * k
    let lower := sma - std * k
    let cur := closes.getLastD 0
    some { upper_band := upper
           middle_band := sma
           lower_band := lower
           band_width := if sma > 0 then ((upper - lower) / sma) * 100 else 0
           bb_position := if upper - lower > 0 then ((cur - lower) / (upper - lower)) * 100
                          else 50 }

end ComprehensiveAnalyzer

/-- Evaluation record returned by `check_uptrend_entry` (the `conditions`
dict is flattened into four booleans, in source order). -/
structure UptrendCheck (α : Type) where
  is_entry : Bool
  strength : α
  price_near_ema21 : Bool
  short_term_uptrend : Bool
  not_overbought : Bool
  volume_confirmation : Bool
  position_size : α
  sl_percent : α
  tp_percent : α

/-- `check_uptrend_entry` of `coinone_strategy_backtest.py` lines 115-145:
categorical reject when `rsi > 40`; otherwise the lowest matching RSI tier
(`≤30`, `≤35`, else `≤40`) fixes position size, stop loss and take profit;
four relaxed conditions are scored equally and entry requires
`strength ≥ 0.75`. -/
def check_uptrend_entry {α : Type} [LinearOrderedField α]
    (rsi price ema21 ema9 bb_middle vr : α) : UptrendCheck α :=
  if rsi > 40 then
    ⟨false, 0, false, false, false, false, 0, 0, 0⟩
  else
    let sizes : α × α × α :=
      if rsi ≤ 30 then (1, 5, 3)
      else if rsi ≤ 35 then (1/2, 4, 2)
      else (1/4, 3, 3/2)
    let c1 := decide (price > ema21 * (98/100))
    let c2 := decide (ema9 > ema21 * (99/100))
    let c3 := decide (price ≤ bb_middle * (101/100))
    let c4 := decide (vr ≥ 1)
    let strength : α :=
      ((if c1 then 1 else 0) + (if c2 then 1 else 0) +
       (if c3 then 1 else 0) + (if c4 then 1 else 0)) / 4
    ⟨decide (strength ≥ 3/4), strength, c1, c2, c3, c4,
      sizes.1, sizes.2.1, sizes.2.2⟩

/-- Evaluation record returned by `check_sideways_entry`. -/
structure SidewaysCheck (α : Type) where
  is_entry : Bool
  strength : α
  near_lower_band : Bool
  deeply_oversold : Bool
  not_extreme : Bool
  volume_spike : Bool

/-- `check_sideways_entry` of `coinone_strategy_backtest.py` lines 147-165:
hard reject when `rsi > 32`; otherwise a weighted strength
(0.35/0.25/0.2/0.2) over four conditions, entry iff `strength ≥ 0.8`. -/
def check_sideways_entry {α : Type} [LinearOrderedField α]
    (rsi bb_position vr : α) : SidewaysCheck α :=
  if rsi > 32 then
    ⟨false, 0, false, false, false, false⟩
  else
    let c1 := decide (bb_position < 2/5)
    let c2 := decide (rsi ≤ 32)
    let c3 := decide (rsi ≥ 15)
    let c4 := decide (vr ≥ 11/10)
    let strength : α :=
      (if c1 then 35/100 else 0) + (if c2 then 25/100 else 0) +
      (if c3 then 1/5 else 0) + (if c4 then 1/5 else 0)
    ⟨decide (strength ≥ 4/5), strength, c1, c2, c3, c4⟩

/-- An entry opportunity recorded by `backtest_strategy` of
`coinone_strategy_backtest.py` (appended to `uptrend_entries` or
`sideways_entries`; timestamps and the condition dict are dropped, the
numeric payload is kept in source order). -/
inductive EntryRec
  | uptrend (price rsi vr strength position_size sl_percent tp_percent : ℝ)
  | sideways (price rsi bb_position vr strength : ℝ)

/-- The body of the loop `for i in range(200, len(candles))` of
`backtest_strategy` (`coinone_strategy_backtest.py` lines 190-249), applied
to the prefixes `closes[:i+1]` and `volumes[:i+1]` (so `price = closes[i]`
and `volume = volumes[i]` are the last elements): computes all indicators on
the prefix, skips when any is `None`, classifies the trend and evaluates the
matching entry checker; returns the recorded entry, if any. -/
noncomputable def analyzeStep (pre vpre : List ℝ) : Option EntryRec :=
  match calculate_rsi pre 14, calculate_ema pre 9, calculate_ema pre 21,
        calculate_ema pre 50, calculate_ema pre 200,
        calculate_bollinger_bands pre 20 2, calculate_volume_ma vpre 5 with
  | some rsi, some ema9, some ema21, some ema50, some ema200,
    some (bbU, bbM, bbL), some vma5 =>
      let price := pre.getLastD 0
      let volume := vpre.getLastD 0
      let vr := if vma5 > 0 then volume / vma5 else 1
      let bbRange := bbU - bbL
      let bbPos := if bbRange > 0 then (price - bbL) / bbRange else 1/2
      match detect_trend ema50 ema200 price with
      | .uptrend =>
          let c := check_uptrend_entry rsi price ema21 ema9 bbM vr
          if c.is_entry then
            some (.uptrend price rsi vr c.strength c.position_size c.sl_percent c.tp_percent)
          else none
      | .sideways =>
          let c := check_sideways_entry rsi bbPos vr
          if c.is_entry then some (.sideways price rsi bbPos vr c.strength)
          else none
      | .downtrend => none
  | _, _, _, _, _, _, _ => none

/-- The indices visited by the analysis loop of `backtest_strategy` when the
candle count is `n`: `range(200, n)`, in iteration order. -/
def visitedIndices (n : ℕ) : List ℕ :=
  (List.range n).filter (fun i => 200 ≤ i)

/-- The full entry list produced by the loop of `backtest_strategy`
(`coinone_strategy_backtest.py` lines 190-249) for the first `n` candles:
`analyzeStep` applied, in order, to the prefix ending at each visited index. -/
noncomputable def backtestEntries (closes volumes : List ℝ) (n : ℕ) : List EntryRec :=
  (visitedIndices n).filterMap
    (fun i => analyzeStep (closes.take (i + 1)) (volumes.take (i + 1)))

/-- `'type'` field of a trade dict in `coinone_xrp_backtest.py`. -/
inductive TradeType
  | BUY
  | SELL
deriving DecidableEq

/-- `'exit_reason'` values recorded by `strategy_combined`
(`coinone_xrp_backtest.py` lines 428 and 446). -/
inductive ExitReason
  | TREND_REVERSAL
  | STOP_LOSS
  | RSI
  | BB
  | END
deriving DecidableEq

/-- A trade dict appended by the strategies of `coinone_xrp_backtest.py`
(the timestamp and the diagnostic echo fields `rsi`, `signal`, `trend`,
`ema50`, `ema200` are dropped; `profit` and `exit_reason` exist only on
SELL records, hence `Option`). -/
structure Trade where
  tradeType : TradeType
  price : ℚ
  quantity : ℚ
  capital : ℚ
  profit : Option ℚ
  reason : Option ExitReason
deriving DecidableEq

/-- One row of the indicator `DataFrame` consumed by the strategies of
`coinone_xrp_backtest.py`: the close plus the indicator columns a strategy
reads at one index.  Columns produced by `rolling` windows are `Option`
(`NaN` before the window fills, the strategies test them with `pd.isna`);
`EMA_9` comes from `ewm` and is defined at every index. -/
structure Row where
  close : ℚ
  rsi : Option ℚ
  bbLower : Option ℚ
  bbMiddle : Option ℚ
  bbUpper : Option ℚ
  ema9 : ℚ
  ema50 : Option ℚ
  ema200 : Option ℚ
deriving DecidableEq

/-- The mutable loop state of a strategy run in `coinone_xrp_backtest.py`:
`capital`, `position` (the held quantity, `0` when flat) and `entry_price`. -/
structure SimState where
  capital : ℚ
  position : ℚ
  entry_price : ℚ
deriving DecidableEq

/-- Entry block of `strategy_combined` (`coinone_xrp_backtest.py` lines
379-405): when flat, in uptrend (`ema50 > ema200`), with an RSI or Bollinger
entry signal and EMA9 rising versus the previous row, buy
`capital * (1 - fee_rate) * position_size / close` units and record a BUY
trade carrying the pre-trade capital. -/
def combinedEntry (psf fee : ℚ) (p r : Row) (rsi bbL e50 e200 : ℚ) (s : SimState) :
    SimState × List Trade :=
  if s.position = 0 ∧ e50 > e200 ∧ (rsi < 35 ∨ r.close ≤ bbL * (1002/1000)) ∧
      r.ema9 > p.ema9 then
    (⟨s.capital, s.capital * (1 - fee) * psf / r.close, r.close⟩,
     [⟨.BUY, r.close, s.capital * (1 - fee) * psf / r.close, s.capital, none, none⟩])
  else (s, [])

/-- Exit block of `strategy_combined` (`coinone_xrp_backtest.py` lines
407-431): when long, sell on RSI > 65, close at/above `BB_Upper * 0.998`
(false when `BB_Upper` is `NaN`, matching a float comparison against `NaN`),
a 2% stop loss, or trend reversal (`ema50 <= ema200`); proceeds are
`position * close * (1 - fee_rate)` and the recorded `exit_reason` follows
the source's nested conditional. -/
def combinedExit (fee : ℚ) (r : Row) (rsi e50 e200 : ℚ) (s : SimState) :
    SimState × List Trade :=
  if 0 < s.position then
    if rsi > 65 ∨ (r.bbUpper.any fun u => decide (r.close ≥ u * (998/1000))) = true ∨
        r.close ≤ s.entry_price * (1 - 2/100) ∨ e50 ≤ e200 then
      (⟨s.position * r.close * (1 - fee), 0, 0⟩,
       [⟨.SELL, r.close, s.position, s.position * r.close * (1 - fee),
         some (s.position * r.close * (1 - fee) - s.entry_price * s.position * (1 - fee)),
         some (if e50 ≤ e200 then .TREND_REVERSAL
               else if r.close ≤ s.entry_price * (1 - 2/100) then .STOP_LOSS
               else if rsi > 65 then .RSI
               else .BB)⟩])
    else (s, [])
  else (s, [])

/-- One iteration of the loop of `strategy_combined` (`coinone_xrp_backtest.py`
lines 362-431) at a row `r` with previous row `p`: skip unless `RSI`,
`BB_Lower`, `EMA_50` and `EMA_200` are all defined; otherwise run the entry
block and then—on the updated state, as in the source, where a buy and a sell
can happen at the same index—the exit block. -/
def combinedStep (psf fee : ℚ) (p r : Row) (s : SimState) : SimState × List Trade :=
  match r.rsi, r.bbLower, r.ema50, r.ema200 with
  | some rsi, some bbL, some e50, some e200 =>
      let e := combinedEntry psf fee p r rsi bbL e50 e200 s
      let x := combinedExit fee r rsi e50 e200 e.1
      (x.1, e.2 ++ x.2)
  | _, _, _, _ => (s, [])

/-- Generic strategy loop: fold a per-row step over the inputs, threading the
position state and appending the emitted trades. -/
def runSteps {ι : Type} (step : ι → SimState → SimState × List Trade) :
    List ι → SimState → List Trade → SimState × List Trade
  | [], s, acc => (s, acc)
  | x :: rest, s, acc =>
      let st := step x s
      runSteps step rest st.1 (acc ++ st.2)

/-- The `(df.loc[i-1], df.loc[i])` pairs visited by a loop
`for i in range(1, len(df))`. -/
def rowPairs (rows : List Row) : List (Row × Row) :=
  rows.zip rows.tail

/-- `strategy_combined` of `coinone_xrp_backtest.py` lines 348-449: run the
per-index loop from index 1, then force-close any open position at the last
close with `exit_reason = 'END'`, applying the sell fee; returns the trade
list and the final capital. -/
def strategy_combined (rows : List Row) (initial_capital psf fee : ℚ) :
    List Trade × ℚ :=
  let res := runSteps (fun pr s => combinedStep psf fee pr.1 pr.2 s)
      (rowPairs rows) ⟨initial_capital, 0, 0⟩ []
  match rows.getLast? with
  | some lr =>
      if 0 < res.1.position then
        (res.2 ++ [⟨.SELL, lr.close, res.1.position,
                    res.1.position * lr.close * (1 - fee),
                    some (res.1.position * lr.close * (1 - fee) -
                          res.1.entry_price * res.1.position * (1 - fee)),
                    some .END⟩],
         res.1.position * lr.close * (1 - fee))
      else (res.2, res.1.capital)
  | none => (res.2, res.1.capital)

/-- One iteration of `strategy_rsi` (`coinone_xrp_backtest.py` lines 222-257):
skip when `RSI` is `NaN`; buy `capital * position_size / close` units (no
fee) when flat and `rsi < rsi_low`; else sell at `capital = position * close`
with `profit = (close - entry_price) * position` when long and
`rsi > rsi_high`. -/
def rsiStep (psf rsi_low rsi_high : ℚ) (r : Row) (s : SimState) :
    SimState × List Trade :=
  match r.rsi with
  | some rsi =>
      if s.position = 0 ∧ rsi < rsi_low then
        (⟨s.capital, s.capital * psf / r.close, r.close⟩,
         [⟨.BUY, r.close, s.capital * psf / r.close, s.capital, none, none⟩])
      else if 0 < s.position ∧ rsi > rsi_high then
        (⟨s.position * r.close, 0, 0⟩,
         [⟨.SELL, r.close, s.position, s.position * r.close,
           some ((r.close - s.entry_price) * s.position), none⟩])
      else (s, [])
  | none => (s, [])

/-- `strategy_rsi` of `coinone_xrp_backtest.py` lines 213-273: loop over all
rows, then force-close any open position at the last close (no fee, no
`exit_reason` field). -/
def strategy_rsi (rows : List Row) (initial_capital psf rsi_low rsi_high : ℚ) :
    List Trade × ℚ :=
  let res := runSteps (rsiStep psf rsi_low rsi_high) rows ⟨initial_capital, 0, 0⟩ []
  match rows.getLast? with
  | some lr =>
      if 0 < res.1.position then
        (res.2 ++ [⟨.SELL, lr.close, res.1.position, res.1.position * lr.close,
                    some ((lr.close - res.1.entry_price) * res.1.position), none⟩],
         res.1.position * lr.close)
      else (res.2, res.1.capital)
  | none => (res.2, res.1.capital)

/-- One iteration of `strategy_bollinger_bands` (`coinone_xrp_backtest.py`
lines 155-190): skip when `BB_Lower` is `NaN`; buy (no fee) when flat and
`close <= BB_Lower * 1.001`; else sell when long and
`close >= BB_Middle * 0.999` (false when `BB_Middle` is `NaN`). -/
def bbStep (psf : ℚ) (r : Row) (s : SimState) : SimState × List Trade :=
  match r.bbLower with
  | some bbL =>
      if s.position = 0 ∧ r.close ≤ bbL * (1001/1000) then
        (⟨s.capital, s.capital * psf / r.close, r.close⟩,
         [⟨.BUY, r.close, s.capital * psf / r.close, s.capital, none, none⟩])
      else if 0 < s.position ∧
          (r.bbMiddle.any fun m => decide (r.close ≥ m * (999/1000))) = true then
        (⟨s.position * r.close, 0, 0⟩,
         [⟨.SELL, r.close, s.position, s.position * r.close,
           some ((r.close - s.entry_price) * s.position), none⟩])
      else (s, [])
  | none => (s, [])

/-- `strategy_bollinger_bands` of `coinone_xrp_backtest.py` lines 141-206:
loop over all rows, then force-close any open position at the last close. -/
def strategy_bollinger_bands (rows : List Row) (initial_capital psf : ℚ) :
    List Trade × ℚ :=
  let res := runSteps (bbStep psf) rows ⟨initial_capital, 0, 0⟩ []
  match rows.getLast? with
  | some lr =>
      if 0 < res.1.position then
        (res.2 ++ [⟨.SELL, lr.close, res.1.position, res.1.position * lr.close,
                    some ((lr.close - res.1.entry_price) * res.1.position), none⟩],
         res.1.position * lr.close)
      else (res.2, res.1.capital)
  | none => (res.2, res.1.capital)

/-- The summary dict built by `analyze_trades` (`coinone_xrp_backtest.py`
lines 456-495).  The zero-trade branch (lines 458-465) populates only
`strategy`, `total_trades`, `final_capital`, `profit` and `return_pct`;
the keys present only in the non-empty branch are `Option` fields, `none`
meaning the key is absent from the returned dict. -/
structure Summary where
  strategy : String
  total_trades : ℕ
  final_capital : ℚ
  profit : ℚ
  return_pct : ℚ
  winning_trades : Option ℕ
  losing_trades : Option ℕ
  win_rate : Option ℚ
  avg_profit : Option ℚ
  max_profit : Option ℚ
  max_loss : Option ℚ
deriving DecidableEq

/-- `analyze_trades` of `coinone_xrp_backtest.py` lines 456-495: on an empty
trade list, an all-zero summary without the win/loss keys; otherwise counts,
win rate over SELL trades, mean/max/min of the SELL profits (`np.mean`,
`max`, `min`, each defaulting to 0 on an empty profit list). -/
def analyze_trades (trades : List Trade) (initial_capital : ℚ)
    (strategy_name : String) : Summary :=
  if trades.length = 0 then
    { strategy := strategy_name, total_trades := 0,
      final_capital := initial_capital, profit := 0, return_pct := 0,
      winning_trades := none, losing_trades := none, win_rate := none,
      avg_profit := none, max_profit := none, max_loss := none }
  else
    let buy_trades := trades.filter (fun t => t.tradeType == .BUY)
    let sell_trades := trades.filter (fun t => t.tradeType == .SELL)
    let final_capital :=
      match trades.getLast? with
      | some t => if t.tradeType = .SELL then t.capital else initial_capital
      | none => initial_capital
    let total_profit := final_capital - initial_capital
    let profits := sell_trades.map (fun t => t.profit.getD 0)
    let winning := profits.filter (fun q => decide (q > 0))
    let losing := profits.filter (fun q => decide (q < 0))
    { strategy := strategy_name
      total_trades := buy_trades.length
      final_capital := final_capital
      profit := total_profit
      return_pct := total_profit / initial_capital * 100
      winning_trades := some winning.length
      losing_trades := some losing.length
      win_rate := some (if sell_trades.length ≠ 0 then
          (winning.length : ℚ) / (sell_trades.length : ℚ) * 100 else 0)
      avg_profit := some (if profits.length ≠ 0 then profits.sum / profits.length else 0)
      max_profit := some ((profits.max?).getD 0)
      max_loss := some ((profits.min?).getD 0) }

section WarmupLemmas

lemma getD_replicate_none : ∀ (n i : ℕ),
    (List.replicate n (none : Option ℚ)).getD i none = none := by
  intro n
  induction n with
  | zero => intro i; simp [List.getD]
  | succ m ih =>
      intro i
      cases i with
      | zero => simp [List.replicate]
      | succ j =>
          rw [List.replicate, List.getD_cons_succ]
          exact ih j

lemma getD_map_some : ∀ (l : List ℚ) (n : ℕ), n < l.length →
    (l.map some).getD n none = some (l.getD n 0) := by
  intro l
  induction l with
  | nil => intro n hn; simp at hn
  | cons x xs ih =>
      intro n hn
      cases n with
      | zero => simp
      | succ m =>
          simp only [List.map_cons, List.getD_cons_succ]
          exact ih m (by simpa using hn)

lemma scanl_getD (f : ℚ → ℚ → ℚ) : ∀ (l : List ℚ) (b : ℚ) (n : ℕ), n ≤ l.length →
    (List.scanl f b l).getD n 0 = List.foldl f b (l.take n) := by
  intro l
  induction l with
  | nil =>
      intro b n hn
      have : n = 0 := Nat.le_zero.mp hn
      subst this
      simp [List.scanl]
  | cons x xs ih =>
      intro b n hn
      cases n with
      | zero => simp [List.scanl]
      | succ m =>
          simp only [List.scanl, List.getD_cons_succ, List.take]
          exact ih (f b x) m (by simpa using hn)

end WarmupLemmas

/-- Claim C3 (amended): an indicator value computed on the prefix
`closes[:i+1]` is defined exactly when the prefix is long enough: for the
scalar EMA, volume MA and Bollinger bands this means `i + 1 ≥ period`
(equivalently `i ≥ period - 1`, not `i ≥ period`), while the RSI needs
`i + 1 ≥ period + 1` (that is `i ≥ period`, as the claim states for RSI);
below the threshold each computation returns `None`. -/
theorem warmup_definedness (prices : List ℚ) (pricesR : List ℝ) (period i j : ℕ)
    (hi : i < prices.length) (hj : j < pricesR.length) :
    ((calculate_ema (prices.take (i + 1)) period).isSome ↔ period ≤ i + 1) ∧
    ((calculate_volume_ma (prices.take (i + 1)) period).isSome ↔ period ≤ i + 1) ∧
    ((calculate_bollinger_bands (pricesR.take (j + 1)) period 2).isSome ↔ period ≤ j + 1) ∧
    ((calculate_rsi (prices.take (i + 1)) period).isSome ↔ period + 1 ≤ i + 1) := by
  have hlen : (prices.take (i + 1)).length = i + 1 := by
    rw [List.length_take]; omega
  have hlenR : (pricesR.take (j + 1)).length = j + 1 := by
    rw [List.length_take]; omega
  refine ⟨?_, ?_, ?_, ?_⟩
  · rw [calculate_ema, hlen]
    split <;> simp <;> omega
  · rw [calculate_volume_ma, hlen]
    split <;> simp <;> omega
  · rw [calculate_bollinger_bands, hlenR]
    split <;> simp <;> omega
  · rw [calculate_rsi, hlen]
    split
    · simp; omega
    · split <;> simp <;> omega

/-- Claim C3 counterexample: with `period = 2`, at index `i = 1 < period`
the scalar EMA on the prefix `[1, 2][:2]` is already defined (it equals the
seed SMA `3/2`), so "defined only when `i ≥ period`" fails for EMA. -/
theorem warmup_definedness_counterexample :
    calculate_ema (List.take (1 + 1) [(1 : ℚ), 2]) 2 = some (3 / 2) ∧ (1 : ℕ) < 2 := by
  constructor
  · norm_num [calculate_ema, emaStep]
  · decide

/-- Concrete instance of `warmup_definedness`. -/
theorem warmup_definedness_witness :
    (1 < [(1 : ℚ), 2, 3].length ∧ 0 < [(0 : ℝ), 2].length) ∧
    (((calculate_ema ([(1 : ℚ), 2, 3].take (1 + 1)) 2).isSome ↔ 2 ≤ 1 + 1) ∧
     ((calculate_volume_ma ([(1 : ℚ), 2, 3].take (1 + 1)) 2).isSome ↔ 2 ≤ 1 + 1) ∧
     ((calculate_bollinger_bands ([(0 : ℝ), 2].take (0 + 1)) 2 2).isSome ↔ 2 ≤ 0 + 1) ∧
     ((calculate_rsi ([(1 : ℚ), 2, 3].take (1 + 1)) 2).isSome ↔ 2 + 1 ≤ 1 + 1)) :=
  ⟨⟨by decide, by decide⟩,
   warmup_definedness [(1 : ℚ), 2, 3] [(0 : ℝ), 2] 2 1 0 (by decide) (by decide)⟩

/-- Claim C4 (amended): recomputing the scalar EMA on every prefix (the
incremental mode, as the simulator advances one candle at a time) agrees at
every index with one batch pass that seeds at index `period - 1` with the
SMA of the first `period` closes and then applies the same recurrence
(`ema_batch`).  It is this SMA-seeded batch series — not pandas
`ewm(span=period, adjust=False)`, which seeds with the first close — that
the prefix-wise scalar EMA equals. -/
theorem ema_batch_eq_prefix (prices : List ℚ) (period i : ℕ)
    (hper : 0 < period) (hi : i < prices.length) :
    (ema_batch prices period).getD i none = calculate_ema (prices.take (i + 1)) period := by
  by_cases hlen : prices.length < period
  · have h1 : (prices.take (i + 1)).length < period := by
      rw [List.length_take]; omega
    rw [ema_batch, if_pos hlen, calculate_ema, if_pos h1, getD_replicate_none]
  · push_neg at hlen
    by_cases hip : i + 1 < period
    · have h1 : (prices.take (i + 1)).length < period := by
        rw [List.length_take]; omega
      have h2 : i < (List.replicate (period - 1) (none : Option ℚ)).length := by
        rw [List.length_replicate]; omega
      rw [ema_batch, if_neg (not_lt.mpr hlen), calculate_ema, if_pos h1,
        List.getD_append _ _ _ _ h2, getD_replicate_none]
    · push_neg at hip
      have h1 : ¬ (prices.take (i + 1)).length < period := by
        rw [List.length_take]; omega
      have h2 : (List.replicate (period - 1) (none : Option ℚ)).length ≤ i := by
        rw [List.length_replicate]; omega
      rw [ema_batch, if_neg (not_lt.mpr hlen), calculate_ema, if_neg h1,
        List.getD_append_right _ _ _ _ h2, List.length_replicate]
      have h3 : i - (period - 1) <
          (List.scanl (emaStep period) ((prices.take period).sum / period)
            (prices.drop period)).length := by
        rw [List.length_scanl, List.length_drop]; omega
      rw [getD_map_some _ _ h3,
        scanl_getD (emaStep period) (prices.drop period)
          ((prices.take period).sum / period) (i - (period - 1))
          (by rw [List.length_drop]; omega)]
      have hseed : (prices.take (i + 1)).take period = prices.take period := by
        rw [List.take_take, min_eq_left hip]
      have hlist : (prices.take (i + 1)).drop period =
          (prices.drop period).take (i - (period - 1)) := by
        rw [List.drop_take]
        congr 1
        omega
      rw [hseed, hlist]

/-- Claim C4 counterexample: for prices `[0, 3]` and `period = 2`, the
prefix-wise scalar EMA at index 1 is the SMA seed `3/2`, while the pandas
`ewm(span=2, adjust=False)` batch series gives `2` at index 1 — the two
computations differ. -/
theorem ema_batch_eq_prefix_counterexample :
    calculate_ema ([(0 : ℚ), 3].take (1 + 1)) 2 = some (3 / 2) ∧
    (ewm_mean [(0 : ℚ), 3] 2).getD 1 0 = 2 ∧ (3 / 2 : ℚ) ≠ 2 := by
  refine ⟨by norm_num [calculate_ema, emaStep], ?_, by norm_num⟩
  norm_num [ewm_mean, List.scanl]

/-- Concrete instance of `ema_batch_eq_prefix`. -/
theorem ema_batch_eq_prefix_witness :
    (0 < 2 ∧ 1 < [(0 : ℚ), 3].length) ∧
    (ema_batch [(0 : ℚ), 3] 2).getD 1 none = calculate_ema ([(0 : ℚ), 3].take (1 + 1)) 2 :=
  ⟨⟨by decide, by decide⟩, ema_batch_eq_prefix [(0 : ℚ), 3] 2 1 (by decide) (by decide)⟩

section RsiBounds

lemma rsiAvgGain_nonneg (prices : List ℚ) (period : ℕ) :
    0 ≤ rsiAvgGain prices period := by
  apply div_nonneg _ (Nat.cast_nonneg period)
  apply List.sum_nonneg
  intro x hx
  rw [lastN] at hx
  have hx2 : x ∈ rsiGains prices := List.mem_of_mem_drop hx
  rw [rsiGains, List.mem_map] at hx2
  obtain ⟨c, -, rfl⟩ := hx2
  split
  · linarith
  · exact le_refl 0

lemma rsiAvgLoss_nonneg (prices : List ℚ) (period : ℕ) :
    0 ≤ rsiAvgLoss prices period := by
  apply div_nonneg _ (Nat.cast_nonneg period)
  apply List.sum_nonneg
  intro x hx
  rw [lastN] at hx
  have hx2 : x ∈ rsiLosses prices := List.mem_of_mem_drop hx
  rw [rsiLosses, List.mem_map] at hx2
  obtain ⟨c, -, rfl⟩ := hx2
  split
  · exact le_refl 0
  · rename_i hc
    push_neg at hc
    linarith

end RsiBounds

/-- Claim C8: whenever the scalar RSI is defined (at least `period + 1`
prices, positive period), its value lies in `[0, 100]`, and the
`avg_loss = 0` branch returns exactly `100`. -/
theorem rsi_bounds (prices : List ℚ) (period : ℕ) (r : ℚ)
    (_hper : 0 < period) (h : calculate_rsi prices period = some r) :
    (0 ≤ r ∧ r ≤ 100) ∧ (rsiAvgLoss prices period = 0 → r = 100) := by
  rw [calculate_rsi] at h
  split at h
  · exact absurd h (by simp)
  · split at h
    · rename_i hzero
      injection h with h'
      subst h'
      exact ⟨⟨by norm_num, le_refl _⟩, fun _ => rfl⟩
    · rename_i hne
      injection h with h'
      subst h'
      have hg := rsiAvgGain_nonneg prices period
      have hl := rsiAvgLoss_nonneg prices period
      have hlpos : 0 < rsiAvgLoss prices period := lt_of_le_of_ne hl (Ne.symm hne)
      have hq : 0 ≤ rsiAvgGain prices period / rsiAvgLoss prices period :=
        div_nonneg hg hl
      have hdpos : 0 < (100 : ℚ) / (1 + rsiAvgGain prices period / rsiAvgLoss prices period) :=
        div_pos (by norm_num) (by linarith)
      have hdle : (100 : ℚ) / (1 + rsiAvgGain prices period / rsiAvgLoss prices period) ≤ 100 :=
        div_le_self (by norm_num) (by linarith)
      exact ⟨⟨by linarith, by linarith⟩, fun h0 => absurd h0 hne⟩

/-- Concrete instance of `rsi_bounds`: two rising prices give RSI 100. -/
theorem rsi_bounds_witness :
    (0 < 1 ∧ calculate_rsi [(1 : ℚ), 2] 1 = some 100) ∧
    ((0 ≤ (100 : ℚ) ∧ (100 : ℚ) ≤ 100) ∧
     (rsiAvgLoss [(1 : ℚ), 2] 1 = 0 → (100 : ℚ) = 100)) :=
  ⟨⟨by decide,
    by norm_num [calculate_rsi, rsiAvgLoss, rsiLosses, priceChanges, lastN]⟩,
   rsi_bounds [(1 : ℚ), 2] 1 100 (by decide)
     (by norm_num [calculate_rsi, rsiAvgLoss, rsiLosses, priceChanges, lastN])⟩

/-- Claim C7: on a zero-trade run, `analyze_trades` does return an all-zero
summary (`total_trades = 0`, `profit = 0`, `return_pct = 0`) without
raising, but its zero-trade dict omits the `win_rate` key entirely (here:
`win_rate = none`), even though the caller `print_results` reads
`r['win_rate']` unconditionally — the claimed `win_rate = 0` entry is
missing from the summary. -/
theorem analyze_trades_zero_trades (c : ℚ) (name : String) :
    analyze_trades [] c name =
      { strategy := name, total_trades := 0, final_capital := c, profit := 0,
        return_pct := 0, winning_trades := none, losing_trades := none,
        win_rate := none, avg_profit := none, max_profit := none,
        max_loss := none } := rfl

/-- The `'type'` column of a trade list. -/
def tradeTypes (ts : List Trade) : List TradeType :=
  ts.map (fun t => t.tradeType)

@[simp] lemma tradeTypes_nil : tradeTypes [] = [] := rfl

@[simp] lemma tradeTypes_cons (t : Trade) (l : List Trade) :
    tradeTypes (t :: l) = t.tradeType :: tradeTypes l := rfl

@[simp] lemma tradeTypes_append (l m : List Trade) :
    tradeTypes (l ++ m) = tradeTypes l ++ tradeTypes m :=
  List.map_append ..

/-- Automaton checking strict BUY/SELL alternation: the boolean state is
"flat, a BUY is expected next"; `none` means the alternation is broken. -/
def altState : Bool → List TradeType → Option Bool
  | b, [] => some b
  | true, .BUY :: r => altState false r
  | false, .SELL :: r => altState true r
  | _, _ :: _ => none

@[simp] lemma altState_nil (b : Bool) : altState b [] = some b := by
  cases b <;> rfl

lemma altState_append : ∀ (l m : List TradeType) (b : Bool),
    altState b (l ++ m) = (altState b l).bind (fun b2 => altState b2 m) := by
  intro l
  induction l with
  | nil => intro m b; simp [altState]
  | cons t r ih =>
      intro m b
      cases b <;> cases t <;> simp [altState, ih]

lemma altState_head (b : Bool) (t : TradeType) (r : List TradeType) (b2 : Bool)
    (h : altState b (t :: r) = some b2) :
    t = (if b then TradeType.BUY else TradeType.SELL) := by
  cases b <;> cases t <;> simp [altState] at h ⊢

lemma altState_chain : ∀ (l : List TradeType) (b b2 : Bool),
    altState b l = some b2 → List.Chain' (fun a c => a ≠ c) l := by
  intro l
  induction l with
  | nil => intro b b2 _; simp
  | cons t r ih =>
      intro b b2 h
      cases r with
      | nil => simp
      | cons u s =>
          rw [List.chain'_cons]
          cases b with
          | true =>
              cases t with
              | BUY =>
                  simp only [altState] at h
                  have hu := altState_head false u s b2 h
                  exact ⟨by simp [hu], ih false b2 h⟩
              | SELL => simp [altState] at h
          | false =>
              cases t with
              | BUY => simp [altState] at h
              | SELL =>
                  simp only [altState] at h
                  have hu := altState_head true u s b2 h
                  exact ⟨by simp [hu], ih true b2 h⟩

lemma altState_last : ∀ (l : List TradeType) (b : Bool),
    altState b l = some true → ∀ t, l.getLast? = some t → t = TradeType.SELL := by
  intro l
  induction l with
  | nil => intro b _ t ht; simp at ht
  | cons u r ih =>
      intro b h t ht
      cases r with
      | nil =>
          simp at ht
          subst ht
          cases b <;> cases u <;> simp_all [altState]
      | cons v s =>
          have ht2 : (v :: s).getLast? = some t := by
            simpa using ht
          cases b <;> cases u <;> simp only [altState] at h
          all_goals first
            | exact ih _ h t ht2
            | simp at h

/-- Strict alternation property of a trade list: consecutive trades differ
in type, the first trade (if any) is a BUY, the last (if any) is a SELL. -/
def AltSpec (ts : List Trade) : Prop :=
  List.Chain' (fun a c => a.tradeType ≠ c.tradeType) ts ∧
  (∀ t, ts.head? = some t → t.tradeType = TradeType.BUY) ∧
  (∀ t, ts.getLast? = some t → t.tradeType = TradeType.SELL)

lemma altSpec_of_altState (ts : List Trade)
    (h : altState true (tradeTypes ts) = some true) : AltSpec ts := by
  refine ⟨?_, ?_, ?_⟩
  · have hch := altState_chain (tradeTypes ts) true true h
    rw [tradeTypes] at hch
    exact (List.chain'_map _).mp hch
  · intro t ht
    cases ts with
    | nil => simp at ht
    | cons u r =>
        simp only [List.head?_cons, Option.some.injEq] at ht
        rw [← ht]
        have hu := altState_head true u.tradeType (tradeTypes r) true
          (by simpa using h)
        simpa using hu
  · intro t ht
    have hlast : (tradeTypes ts).getLast? = some t.tradeType := by
      rw [tradeTypes, List.getLast?_map, ht]
      rfl
    exact altState_last (tradeTypes ts) true h t.tradeType hlast

/-- Invariant preservation through `runSteps`: if every step keeps the
capital positive, the position nonnegative, and extends the trade tape in a
way the alternation automaton accepts, then so does the whole loop. -/
lemma runSteps_alt {ι : Type} (step : ι → SimState → SimState × List Trade)
    (good : ι → Prop)
    (hstep : ∀ x s, good x → 0 < s.capital → 0 ≤ s.position →
      0 < (step x s).1.capital ∧ 0 ≤ (step x s).1.position ∧
      altState (decide (s.position = 0)) (tradeTypes (step x s).2) =
        some (decide ((step x s).1.position = 0))) :
    ∀ (l : List ι) (s : SimState) (acc : List Trade),
      (∀ x ∈ l, good x) → 0 < s.capital → 0 ≤ s.position →
      altState true (tradeTypes acc) = some (decide (s.position = 0)) →
      0 < (runSteps step l s acc).1.capital ∧
      0 ≤ (runSteps step l s acc).1.position ∧
      altState true (tradeTypes (runSteps step l s acc).2) =
        some (decide ((runSteps step l s acc).1.position = 0)) := by
  intro l
  induction l with
  | nil =>
      intro s acc _ hc hp hacc
      exact ⟨hc, hp, hacc⟩
  | cons x rest ih =>
      intro s acc hg hc hp hacc
      have hx := hstep x s (hg x (by simp)) hc hp
      simp only [runSteps]
      apply ih (step x s).1 (acc ++ (step x s).2)
        (fun y hy => hg y (List.mem_cons_of_mem _ hy)) hx.1 hx.2.1
      rw [tradeTypes_append, altState_append, hacc]
      exact hx.2.2

lemma combinedEntry_ok (psf fee : ℚ) (p r : Row) (rsi bbL e50 e200 : ℚ) (s : SimState)
    (hpsf : 0 < psf) (hfee : fee < 1) (hclose : 0 < r.close)
    (hc : 0 < s.capital) (hp : 0 ≤ s.position) :
    (combinedEntry psf fee p r rsi bbL e50 e200 s).1.capital = s.capital ∧
    0 ≤ (combinedEntry psf fee p r rsi bbL e50 e200 s).1.position ∧
    altState (decide (s.position = 0))
        (tradeTypes (combinedEntry psf fee p r rsi bbL e50 e200 s).2) =
      some (decide ((combinedEntry psf fee p r rsi bbL e50 e200 s).1.position = 0)) := by
  rw [combinedEntry]
  split
  case isTrue hcond =>
    have hq : 0 < s.capital * (1 - fee) * psf / r.close :=
      div_pos (mul_pos (mul_pos hc (by linarith)) hpsf) hclose
    refine ⟨rfl, le_of_lt hq, ?_⟩
    have h0 : decide (s.position = 0) = true := decide_eq_true hcond.1
    rw [h0]
    simp [altState, tradeTypes, hq.ne']
  case isFalse hcond =>
    exact ⟨rfl, hp, altState_nil _⟩

lemma combinedExit_ok (fee : ℚ) (r : Row) (rsi e50 e200 : ℚ) (s : SimState)
    (hfee : fee < 1) (hclose : 0 < r.close)
    (hc : 0 < s.capital) (hp : 0 ≤ s.position) :
    0 < (combinedExit fee r rsi e50 e200 s).1.capital ∧
    0 ≤ (combinedExit fee r rsi e50 e200 s).1.position ∧
    altState (decide (s.position = 0))
        (tradeTypes (combinedExit fee r rsi e50 e200 s).2) =
      some (decide ((combinedExit fee r rsi e50 e200 s).1.position = 0)) := by
  rw [combinedExit]
  split
  case isTrue hpos =>
    split
    case isTrue hcond =>
      have hcap : 0 < s.position * r.close * (1 - fee) :=
        mul_pos (mul_pos hpos hclose) (by linarith)
      have h0 : decide (s.position = 0) = false := by simp [hpos.ne']
      refine ⟨hcap, by norm_num, ?_⟩
      rw [h0]
      simp [altState, tradeTypes]
    case isFalse hcond => exact ⟨hc, hp, altState_nil _⟩
  case isFalse hpos => exact ⟨hc, hp, altState_nil _⟩

lemma combinedStep_ok (psf fee : ℚ) (pr : Row × Row) (s : SimState)
    (hpsf : 0 < psf) (hfee : fee < 1) (hclose : 0 < pr.2.close)
    (hc : 0 < s.capital) (hp : 0 ≤ s.position) :
    0 < (combinedStep psf fee pr.1 pr.2 s).1.capital ∧
    0 ≤ (combinedStep psf fee pr.1 pr.2 s).1.position ∧
    altState (decide (s.position = 0))
        (tradeTypes (combinedStep psf fee pr.1 pr.2 s).2) =
      some (decide ((combinedStep psf fee pr.1 pr.2 s).1.position = 0)) := by
  obtain ⟨p, r⟩ := pr
  simp only at hclose
  rcases hrsi : r.rsi with - | rsi
  · simp only [combinedStep, hrsi]; exact ⟨hc, hp, altState_nil _⟩
  rcases hbl : r.bbLower with - | bbL
  · simp only [combinedStep, hrsi, hbl]; exact ⟨hc, hp, altState_nil _⟩
  rcases h50 : r.ema50 with - | e50
  · simp only [combinedStep, hrsi, hbl, h50]; exact ⟨hc, hp, altState_nil _⟩
  rcases h200 : r.ema200 with - | e200
  · simp only [combinedStep, hrsi, hbl, h50, h200]; exact ⟨hc, hp, altState_nil _⟩
  simp only [combinedStep, hrsi, hbl, h50, h200]
  have he := combinedEntry_ok psf fee p r rsi bbL e50 e200 s hpsf hfee hclose hc hp
  have hx := combinedExit_ok fee r rsi e50 e200
    (combinedEntry psf fee p r rsi bbL e50 e200 s).1 hfee hclose
    (by rw [he.1]; exact hc) he.2.1
  refine ⟨hx.1, hx.2.1, ?_⟩
  rw [tradeTypes_append, altState_append, he.2.2]
  exact hx.2.2

lemma rsiStep_ok (psf low high : ℚ) (r : Row) (s : SimState)
    (hpsf : 0 < psf) (hclose : 0 < r.close)
    (hc : 0 < s.capital) (hp : 0 ≤ s.position) :
    0 < (rsiStep psf low high r s).1.capital ∧
    0 ≤ (rsiStep psf low high r s).1.position ∧
    altState (decide (s.position = 0)) (tradeTypes (rsiStep psf low high r s).2) =
      some (decide ((rsiStep psf low high r s).1.position = 0)) := by
  rcases hrsi : r.rsi with - | rsi
  · simp only [rsiStep, hrsi]; exact ⟨hc, hp, altState_nil _⟩
  simp only [rsiStep, hrsi]
  split
  case isTrue hcond =>
    have hq : 0 < s.capital * psf / r.close := div_pos (mul_pos hc hpsf) hclose
    have h0 : decide (s.position = 0) = true := decide_eq_true hcond.1
    refine ⟨hc, le_of_lt hq, ?_⟩
    rw [h0]
    simp [altState, tradeTypes, hq.ne']
  case isFalse h1 =>
    split
    case isTrue hcond =>
      have hcap : 0 < s.position * r.close := mul_pos hcond.1 hclose
      have h0 : decide (s.position = 0) = false := by simp [hcond.1.ne']
      refine ⟨hcap, by norm_num, ?_⟩
      rw [h0]
      simp [altState, tradeTypes]
    case isFalse h2 => exact ⟨hc, hp, altState_nil _⟩

lemma bbStep_ok (psf : ℚ) (r : Row) (s : SimState)
    (hpsf : 0 < psf) (hclose : 0 < r.close)
    (hc : 0 < s.capital) (hp : 0 ≤ s.position) :
    0 < (bbStep psf r s).1.capital ∧
    0 ≤ (bbStep psf r s).1.position ∧
    altState (decide (s.position = 0)) (tradeTypes (bbStep psf r s).2) =
      some (decide ((bbStep psf r s).1.position = 0)) := by
  rcases hbl : r.bbLower with - | bbL
  · simp only [bbStep, hbl]; exact ⟨hc, hp, altState_nil _⟩
  simp only [bbStep, hbl]
  split
  case isTrue hcond =>
    have hq : 0 < s.capital * psf / r.close := div_pos (mul_pos hc hpsf) hclose
    have h0 : decide (s.position = 0) = true := decide_eq_true hcond.1
    refine ⟨hc, le_of_lt hq, ?_⟩
    rw [h0]
    simp [altState, tradeTypes, hq.ne']
  case isFalse h1 =>
    split
    case isTrue hcond =>
      have hcap : 0 < s.position * r.close := mul_pos hcond.1 hclose
      have h0 : decide (s.position = 0) = false := by simp [hcond.1.ne']
      refine ⟨hcap, by norm_num, ?_⟩
      rw [h0]
      simp [altState, tradeTypes]
    case isFalse h2 => exact ⟨hc, hp, altState_nil _⟩

/-- Claim C2: for positive initial capital, a positive position-size
fraction, a fee below 100% and positive closes, every run of the combined
strategy and of the RSI strategy emits a strictly alternating trade list —
BUY, SELL, BUY, SELL, … — whose first trade (if any) is a BUY and whose
last trade (if any) is a SELL: an open position is force-closed on the last
candle, so every run ends flat. -/
theorem trade_alternation (rows : List Row) (cap psf fee low high : ℚ)
    (hcap : 0 < cap) (hpsf : 0 < psf) (hfee : fee < 1)
    (hrows : ∀ r ∈ rows, 0 < r.close) :
    AltSpec (strategy_combined rows cap psf fee).1 ∧
    AltSpec (strategy_rsi rows cap psf low high).1 := by
  constructor
  · have hinv := runSteps_alt (fun pr s => combinedStep psf fee pr.1 pr.2 s)
      (fun pr => 0 < pr.2.close)
      (fun x s hx hc hp => combinedStep_ok psf fee x s hpsf hfee hx hc hp)
      (rowPairs rows) ⟨cap, 0, 0⟩ []
      (by
        rintro ⟨a, b⟩ hpr
        exact hrows b (List.mem_of_mem_tail (List.of_mem_zip hpr).2))
      hcap (le_refl 0) (by simp)
    rw [strategy_combined]
    rcases hlast : rows.getLast? with - | lr
    · have hnil : rows = [] := List.getLast?_eq_none_iff.mp hlast
      subst hnil
      simp [runSteps, rowPairs, AltSpec]
    · simp only
      split
      case isTrue hpos =>
        apply altSpec_of_altState
        rw [tradeTypes_append, altState_append, hinv.2.2]
        have h0 : decide ((runSteps (fun pr s => combinedStep psf fee pr.1 pr.2 s)
            (rowPairs rows) ⟨cap, 0, 0⟩ []).1.position = 0) = false := by
          simp [hpos.ne']
        rw [h0]
        simp [altState, tradeTypes]
      case isFalse hnpos =>
        apply altSpec_of_altState
        have hzero : (runSteps (fun pr s => combinedStep psf fee pr.1 pr.2 s)
            (rowPairs rows) ⟨cap, 0, 0⟩ []).1.position = 0 :=
          le_antisymm (not_lt.mp hnpos) hinv.2.1
        rw [hinv.2.2, hzero]
        simp
  · have hinv := runSteps_alt (rsiStep psf low high)
      (fun r => 0 < r.close)
      (fun x s hx hc hp => rsiStep_ok psf low high x s hpsf hx hc hp)
      rows ⟨cap, 0, 0⟩ [] hrows hcap (le_refl 0) (by simp)
    rw [strategy_rsi]
    rcases hlast : rows.getLast? with - | lr
    · have hnil : rows = [] := List.getLast?_eq_none_iff.mp hlast
      subst hnil
      simp [runSteps, AltSpec]
    · simp only
      split
      case isTrue hpos =>
        apply altSpec_of_altState
        rw [tradeTypes_append, altState_append, hinv.2.2]
        have h0 : decide ((runSteps (rsiStep psf low high)
            rows ⟨cap, 0, 0⟩ []).1.position = 0) = false := by
          simp [hpos.ne']
        rw [h0]
        simp [altState, tradeTypes]
      case isFalse hnpos =>
        apply altSpec_of_altState
        have hzero : (runSteps (rsiStep psf low high)
            rows ⟨cap, 0, 0⟩ []).1.position = 0 :=
          le_antisymm (not_lt.mp hnpos) hinv.2.1
        rw [hinv.2.2, hzero]
        simp

/-- A warmed-up indicator row used as concrete test data. -/
def wRowA : Row :=
  { close := 100, rsi := some 50, bbLower := some 100, bbMiddle := some 100,
    bbUpper := some 100, ema9 := 5, ema50 := some 2, ema200 := some 1 }

/-- A second concrete indicator row that triggers a combined-strategy entry. -/
def wRowB : Row :=
  { close := 100, rsi := some 30, bbLower := some 95, bbMiddle := some 100,
    bbUpper := some 110, ema9 := 6, ema50 := some 2, ema200 := some 1 }

/-- Concrete instance of `trade_alternation`. -/
theorem trade_alternation_witness :
    ((0 : ℚ) < 100 ∧ (0 : ℚ) < 1 ∧ (1 / 2 : ℚ) < 1 ∧
      (∀ r ∈ [wRowA, wRowB], 0 < r.close)) ∧
    (AltSpec (strategy_combined [wRowA, wRowB] 100 1 (1 / 2)).1 ∧
     AltSpec (strategy_rsi [wRowA, wRowB] 100 1 60 70).1) :=
  ⟨⟨by norm_num, by norm_num, by norm_num,
    by rintro r hr; fin_cases hr <;> norm_num [wRowA, wRowB]⟩,
   trade_alternation [wRowA, wRowB] 100 1 (1 / 2) 60 70
     (by norm_num) (by norm_num) (by norm_num)
     (by rintro r hr; fin_cases hr <;> norm_num [wRowA, wRowB])⟩

/-- Claim C1: on a FLAT-to-LONG transition the recorded BUY quantity is
`capital * positionSize * (1 - feeRate) / price` (with the pre-trade capital
recorded on the trade), and on a LONG-to-FLAT transition the new capital is
`quantity * price * (1 - feeRate)` and the recorded profit is that capital
minus `entry_price * quantity * (1 - feeRate)`.  `strategy_combined` applies
the fee; `strategy_bollinger_bands` charges no fee, i.e. the same formulas
with `feeRate = 0`; the terminal force close of `strategy_combined` settles
the position with the same fee-adjusted formulas. -/
theorem trade_accounting (psf fee cap : ℚ) (p r : Row) (s : SimState)
    (rows : List Row) :
    (s.position = 0 →
      ∀ t ∈ (combinedStep psf fee p r s).2, t.tradeType = TradeType.BUY →
        t.price = r.close ∧ t.capital = s.capital ∧
        t.quantity = s.capital * psf * (1 - fee) / r.close) ∧
    (0 < s.position →
      ∀ t ∈ (combinedStep psf fee p r s).2, t.tradeType = TradeType.SELL →
        t.quantity = s.position ∧
        t.capital = s.position * r.close * (1 - fee) ∧
        t.profit = some (t.capital - s.entry_price * s.position * (1 - fee)) ∧
        (combinedStep psf fee p r s).1.capital = t.capital) ∧
    (s.position = 0 →
      ∀ t ∈ (bbStep psf r s).2, t.tradeType = TradeType.BUY →
        t.price = r.close ∧ t.capital = s.capital ∧
        t.quantity = s.capital * psf * (1 - 0) / r.close) ∧
    (0 < s.position →
      ∀ t ∈ (bbStep psf r s).2, t.tradeType = TradeType.SELL →
        t.quantity = s.position ∧
        t.capital = s.position * r.close * (1 - 0) ∧
        t.profit = some (t.capital - s.entry_price * s.position * (1 - 0))) ∧
    (∀ lr, rows.getLast? = some lr →
      ∀ res, res = runSteps (fun pr s2 => combinedStep psf fee pr.1 pr.2 s2)
          (rowPairs rows) ⟨cap, 0, 0⟩ [] →
      0 < res.1.position →
      ∀ t, (strategy_combined rows cap psf fee).1.getLast? = some t →
        t.quantity = res.1.position ∧
        t.capital = res.1.position * lr.close * (1 - fee) ∧
        t.profit = some (t.capital -
          res.1.entry_price * res.1.position * (1 - fee)) ∧
        (strategy_combined rows cap psf fee).2 = t.capital) := by
  refine ⟨?_, ?_, ?_, ?_, ?_⟩
  · intro hflat t ht htype
    rcases hrsi : r.rsi with - | rsi
    · simp [combinedStep, hrsi] at ht
    rcases hbl : r.bbLower with - | bbL
    · simp [combinedStep, hrsi, hbl] at ht
    rcases h50 : r.ema50 with - | e50
    · simp [combinedStep, hrsi, hbl, h50] at ht
    rcases h200 : r.ema200 with - | e200
    · simp [combinedStep, hrsi, hbl, h50, h200] at ht
    simp only [combinedStep, hrsi, hbl, h50, h200, List.mem_append] at ht
    rcases ht with ht | ht
    · rw [combinedEntry] at ht
      split at ht
      case isTrue hcond =>
        simp only [List.mem_singleton] at ht
        subst ht
        exact ⟨rfl, rfl, by ring⟩
      case isFalse hcond => simp at ht
    · rw [combinedExit] at ht
      split at ht
      case isTrue =>
        split at ht
        case isTrue =>
          simp only [List.mem_singleton] at ht
          subst ht
          simp at htype
        case isFalse => simp at ht
      case isFalse => simp at ht
  · intro hpos t ht htype
    rcases hrsi : r.rsi with - | rsi
    · simp [combinedStep, hrsi] at ht
    rcases hbl : r.bbLower with - | bbL
    · simp [combinedStep, hrsi, hbl] at ht
    rcases h50 : r.ema50 with - | e50
    · simp [combinedStep, hrsi, hbl, h50] at ht
    rcases h200 : r.ema200 with - | e200
    · simp [combinedStep, hrsi, hbl, h50, h200] at ht
    simp only [combinedStep, hrsi, hbl, h50, h200, List.mem_append] at ht ⊢
    rw [combinedEntry] at ht ⊢
    rw [if_neg (fun hcond => absurd hcond.1 hpos.ne')] at ht ⊢
    simp only [List.nil_append] at ht ⊢
    rw [combinedExit] at ht ⊢
    rw [if_pos hpos] at ht ⊢
    split at ht
    case isTrue hcond =>
      rw [if_pos hcond]
      rcases ht with ht | ht
      · simp at ht
      · simp only [List.mem_singleton] at ht
        subst ht
        exact ⟨rfl, rfl, rfl, rfl⟩
    case isFalse hcond =>
      rcases ht with ht | ht <;> simp at ht
  · intro hflat t ht htype
    rcases hbl : r.bbLower with - | bbL
    · simp [bbStep, hbl] at ht
    simp only [bbStep, hbl] at ht
    split at ht
    case isTrue hcond =>
      simp only [List.mem_singleton] at ht
      subst ht
      exact ⟨rfl, rfl, by ring⟩
    case isFalse h1 =>
      split at ht
      case isTrue hcond => exact absurd hcond.1.ne' (by simp [hflat])
      case isFalse => simp at ht
  · intro hpos t ht htype
    rcases hbl : r.bbLower with - | bbL
    · simp [bbStep, hbl] at ht
    simp only [bbStep, hbl] at ht
    split at ht
    case isTrue hcond => exact absurd hcond.1 hpos.ne'
    case isFalse h1 =>
      split at ht
      case isTrue hcond =>
        simp only [List.mem_singleton] at ht
        subst ht
        refine ⟨rfl, by ring, ?_⟩
        rw [Option.some.injEq]
        ring
      case isFalse => simp at ht
  · intro lr hlast res hres hpos2 t ht
    rw [strategy_combined] at ht ⊢
    simp only [hlast] at ht ⊢
    rw [← hres] at ht ⊢
    rw [if_pos hpos2] at ht ⊢
    rw [List.getLast?_concat] at ht
    injection ht with ht
    subst ht
    exact ⟨rfl, rfl, rfl, rfl⟩

/-- The BUY trade emitted by `combinedStep` at the concrete test state. -/
def wTradeBuy : Trade :=
  { tradeType := .BUY, price := 100, quantity := 100 * (1 - 1 / 2) * 1 / 100,
    capital := 100, profit := none, reason := none }

/-- Concrete instance of `trade_accounting`. -/
theorem trade_accounting_witness :
    ((⟨100, 0, 0⟩ : SimState).position = 0 ∧
     wTradeBuy ∈ (combinedStep 1 (1 / 2) wRowA wRowB ⟨100, 0, 0⟩).2 ∧
     wTradeBuy.tradeType = TradeType.BUY) ∧
    (wTradeBuy.price = wRowB.close ∧
     wTradeBuy.capital = (⟨100, 0, 0⟩ : SimState).capital ∧
     wTradeBuy.quantity =
       (⟨100, 0, 0⟩ : SimState).capital * 1 * (1 - 1 / 2) / wRowB.close) := by
  have hmem : wTradeBuy ∈ (combinedStep 1 (1 / 2) wRowA wRowB ⟨100, 0, 0⟩).2 := by
    norm_num [combinedStep, combinedEntry, combinedExit, wRowA, wRowB, wTradeBuy,
      Option.any]
  exact ⟨⟨rfl, hmem, rfl⟩,
    (trade_accounting 1 (1 / 2) 100 wRowA wRowB ⟨100, 0, 0⟩ []).1 rfl wTradeBuy hmem rfl⟩

/-- Claim C6: at a row where `RSI`, `BB_Lower`, `BB_Upper`, `EMA_50` and
`EMA_200` are all defined, the flat combined strategy enters (emits a BUY)
iff the uptrend filter `ema50 > ema200` holds AND (RSI < 35 OR
`close ≤ lowerBand * 1.002`) AND `EMA_9` is strictly above its previous-row
value; and a long position exits (emits a SELL) iff RSI > 65 OR
`close ≥ upperBand * 0.998` OR the 2% stop loss is hit OR the trend filter
has flipped (`ema50 ≤ ema200`). -/
theorem combined_entry_exit_iff (psf fee : ℚ) (p r : Row) (s : SimState)
    (rsi bbL bbU e50 e200 : ℚ)
    (hrsi : r.rsi = some rsi) (hbl : r.bbLower = some bbL)
    (hbu : r.bbUpper = some bbU) (h50 : r.ema50 = some e50)
    (h200 : r.ema200 = some e200) :
    (s.position = 0 →
      ((∃ t ∈ (combinedStep psf fee p r s).2, t.tradeType = TradeType.BUY) ↔
        (e50 > e200 ∧ (rsi < 35 ∨ r.close ≤ bbL * (1002 / 1000)) ∧
          r.ema9 > p.ema9))) ∧
    (0 < s.position →
      ((∃ t ∈ (combinedStep psf fee p r s).2, t.tradeType = TradeType.SELL) ↔
        (rsi > 65 ∨ r.close ≥ bbU * (998 / 1000) ∨
          r.close ≤ s.entry_price * (1 - 2 / 100) ∨ e50 ≤ e200))) := by
  constructor
  · intro hflat
    simp only [combinedStep, hrsi, hbl, h50, h200]
    rw [combinedEntry]
    have hiff : (s.position = 0 ∧ e50 > e200 ∧
        (rsi < 35 ∨ r.close ≤ bbL * (1002 / 1000)) ∧ r.ema9 > p.ema9) ↔
        (e50 > e200 ∧ (rsi < 35 ∨ r.close ≤ bbL * (1002 / 1000)) ∧
          r.ema9 > p.ema9) := by
      simp [hflat]
    rw [if_congr hiff rfl rfl]
    split
    case isTrue hx =>
      refine iff_of_true ⟨⟨.BUY, r.close, s.capital * (1 - fee) * psf / r.close,
        s.capital, none, none⟩, ?_, rfl⟩ hx
      simp
    case isFalse hx =>
      rw [combinedExit, if_neg (by rw [hflat]; exact lt_irrefl 0)]
      exact iff_of_false (by simp) hx
  · intro hpos
    have hne : ¬ (s.position = 0 ∧ e50 > e200 ∧
        (rsi < 35 ∨ r.close ≤ bbL * (1002 / 1000)) ∧ r.ema9 > p.ema9) :=
      fun h => absurd h.1 hpos.ne'
    simp only [combinedStep, hrsi, hbl, h50, h200]
    rw [combinedEntry, if_neg hne]
    simp only [List.nil_append]
    rw [combinedExit, if_pos hpos]
    have hiff : (rsi > 65 ∨
        ((r.bbUpper.any fun u => decide (r.close ≥ u * (998 / 1000))) = true) ∨
        r.close ≤ s.entry_price * (1 - 2 / 100) ∨ e50 ≤ e200) ↔
        (rsi > 65 ∨ r.close ≥ bbU * (998 / 1000) ∨
          r.close ≤ s.entry_price * (1 - 2 / 100) ∨ e50 ≤ e200) := by
      simp [hbu]
    rw [if_congr hiff rfl rfl]
    split
    case isTrue hx =>
      exact iff_of_true ⟨_, List.mem_singleton_self _, rfl⟩ hx
    case isFalse hx =>
      exact iff_of_false (by simp) hx

/-- Concrete instance of `combined_entry_exit_iff`. -/
theorem combined_entry_exit_iff_witness :
    (wRowB.rsi = some 30 ∧ wRowB.bbLower = some 95 ∧ wRowB.bbUpper = some 110 ∧
     wRowB.ema50 = some 2 ∧ wRowB.ema200 = some 1) ∧
    ((((⟨100, 0, 0⟩ : SimState).position = 0 →
      ((∃ t ∈ (combinedStep 1 (1 / 2) wRowA wRowB ⟨100, 0, 0⟩).2,
          t.tradeType = TradeType.BUY) ↔
        ((2 : ℚ) > 1 ∧ ((30 : ℚ) < 35 ∨ wRowB.close ≤ 95 * (1002 / 1000)) ∧
          wRowB.ema9 > wRowA.ema9))) ∧
     (0 < (⟨100, 0, 0⟩ : SimState).position →
      ((∃ t ∈ (combinedStep 1 (1 / 2) wRowA wRowB ⟨100, 0, 0⟩).2,
          t.tradeType = TradeType.SELL) ↔
        ((30 : ℚ) > 65 ∨ wRowB.close ≥ 110 * (998 / 1000) ∨
          wRowB.close ≤ (⟨100, 0, 0⟩ : SimState).entry_price * (1 - 2 / 100) ∨
          (2 : ℚ) ≤ 1))))) :=
  ⟨⟨rfl, rfl, rfl, rfl, rfl⟩,
   combined_entry_exit_iff 1 (1 / 2) wRowA wRowB ⟨100, 0, 0⟩ 30 95 110 2 1
     rfl rfl rfl rfl rfl⟩

/-- Claim C10: when a long combined-strategy position exits, the single
recorded `exit_reason` follows the fixed priority TREND_REVERSAL, then
STOP_LOSS, then RSI, then BB; and a position force-closed after the loop (at
the end of data) always records `exit_reason = 'END'`. -/
theorem exit_reason_priority (psf fee cap : ℚ) (p r : Row) (s : SimState)
    (rsi bbL bbU e50 e200 : ℚ) (rows : List Row)
    (hrsi : r.rsi = some rsi) (hbl : r.bbLower = some bbL)
    (hbu : r.bbUpper = some bbU) (h50 : r.ema50 = some e50)
    (h200 : r.ema200 = some e200) (hpos : 0 < s.position) :
    ((e50 ≤ e200 →
       ∀ t ∈ (combinedStep psf fee p r s).2,
         t.reason = some ExitReason.TREND_REVERSAL) ∧
     (¬ e50 ≤ e200 → r.close ≤ s.entry_price * (1 - 2 / 100) →
       ∀ t ∈ (combinedStep psf fee p r s).2,
         t.reason = some ExitReason.STOP_LOSS) ∧
     (¬ e50 ≤ e200 → ¬ r.close ≤ s.entry_price * (1 - 2 / 100) → rsi > 65 →
       ∀ t ∈ (combinedStep psf fee p r s).2, t.reason = some ExitReason.RSI) ∧
     (¬ e50 ≤ e200 → ¬ r.close ≤ s.entry_price * (1 - 2 / 100) → ¬ rsi > 65 →
       r.close ≥ bbU * (998 / 1000) →
       ∀ t ∈ (combinedStep psf fee p r s).2, t.reason = some ExitReason.BB)) ∧
    (∀ lr, rows.getLast? = some lr →
      0 < (runSteps (fun pr s => combinedStep psf fee pr.1 pr.2 s)
            (rowPairs rows) ⟨cap, 0, 0⟩ []).1.position →
      ∀ t, (strategy_combined rows cap psf fee).1.getLast? = some t →
        t.reason = some ExitReason.END) := by
  have hne : ¬ (s.position = 0 ∧ e50 > e200 ∧
      (rsi < 35 ∨ r.close ≤ bbL * (1002 / 1000)) ∧ r.ema9 > p.ema9) :=
    fun h => absurd h.1 hpos.ne'
  constructor
  · refine ⟨?_, ?_, ?_, ?_⟩
    · intro htrend t ht
      simp only [combinedStep, hrsi, hbl, h50, h200] at ht
      rw [combinedEntry, if_neg hne] at ht
      simp only [List.nil_append] at ht
      rw [combinedExit, if_pos hpos,
        if_pos (Or.inr (Or.inr (Or.inr htrend)))] at ht
      simp only [List.mem_singleton] at ht
      subst ht
      simp [htrend]
    · intro htrend hstop t ht
      simp only [combinedStep, hrsi, hbl, h50, h200] at ht
      rw [combinedEntry, if_neg hne] at ht
      simp only [List.nil_append] at ht
      rw [combinedExit, if_pos hpos,
        if_pos (Or.inr (Or.inr (Or.inl hstop)))] at ht
      simp only [List.mem_singleton] at ht
      subst ht
      simp [htrend, hstop]
    · intro htrend hstop hrsiexit t ht
      simp only [combinedStep, hrsi, hbl, h50, h200] at ht
      rw [combinedEntry, if_neg hne] at ht
      simp only [List.nil_append] at ht
      rw [combinedExit, if_pos hpos, if_pos (Or.inl hrsiexit)] at ht
      simp only [List.mem_singleton] at ht
      subst ht
      simp [htrend, hstop, hrsiexit]
    · intro htrend hstop hrsiexit hbb t ht
      simp only [combinedStep, hrsi, hbl, h50, h200] at ht
      rw [combinedEntry, if_neg hne] at ht
      simp only [List.nil_append] at ht
      rw [combinedExit, if_pos hpos,
        if_pos (Or.inr (Or.inl (by simp [hbu]; exact hbb)))] at ht
      simp only [List.mem_singleton] at ht
      subst ht
      simp [htrend, hstop, hrsiexit]
  · intro lr hlast hpos2 t ht
    rw [strategy_combined] at ht
    simp only [hlast] at ht
    rw [if_pos hpos2] at ht
    rw [List.getLast?_concat] at ht
    injection ht with ht
    rw [← ht]

/-- A concrete indicator row whose trend filter has flipped
(`EMA_50 ≤ EMA_200`). -/
def wRowC : Row :=
  { close := 100, rsi := some 50, bbLower := some 95, bbMiddle := some 100,
    bbUpper := some 110, ema9 := 6, ema50 := some 1, ema200 := some 2 }

/-- The SELL trade emitted by `combinedStep` at the concrete long state on
the trend-reversal row. -/
def wTradeSellC : Trade :=
  { tradeType := .SELL, price := 100, quantity := 1, capital := 50,
    profit := some 0, reason := some .TREND_REVERSAL }

/-- Concrete instance of `exit_reason_priority`: with the trend filter
flipped, the recorded exit reason is TREND_REVERSAL. -/
theorem exit_reason_priority_witness :
    (wRowC.rsi = some 50 ∧ wRowC.ema50 = some 1 ∧ wRowC.ema200 = some 2 ∧
     (0 : ℚ) < (⟨100, 1, 100⟩ : SimState).position ∧ (1 : ℚ) ≤ 2 ∧
     wTradeSellC ∈ (combinedStep 1 (1 / 2) wRowA wRowC ⟨100, 1, 100⟩).2) ∧
    wTradeSellC.reason = some ExitReason.TREND_REVERSAL := by
  have hmem : wTradeSellC ∈ (combinedStep 1 (1 / 2) wRowA wRowC ⟨100, 1, 100⟩).2 := by
    norm_num [combinedStep, combinedEntry, combinedExit, wRowA, wRowC, wTradeSellC,
      Option.any]
  refine ⟨⟨rfl, rfl, rfl, by norm_num, by norm_num, hmem⟩, ?_⟩
  exact (exit_reason_priority 1 (1 / 2) 100 wRowA wRowC ⟨100, 1, 100⟩ 50 95 110 1 2 []
    rfl rfl rfl rfl rfl (by norm_num)).1.1 (by norm_num) wTradeSellC hmem

lemma lastN_length {β : Type} (n : ℕ) (xs : List β) (h : n ≤ xs.length) :
    (lastN n xs).length = n := by
  rw [lastN, List.length_drop]
  omega

/-- Claim C5 (amended): in every Bollinger implementation the middle band is
the simple mean of the last `period` closes and upper/lower are
`mean ± multiplier·std`, but the standard deviation differs: the scalar
implementations (`coinone_strategy_backtest.py`, `debug_bot_logic.py`) use
the population standard deviation (variance divided by `period`), while
`ComprehensiveAnalyzer.calculate_bollinger_bands` uses the sample standard
deviation (`statistics.stdev`, variance divided by `period - 1`) and
reports the width as a percentage `((upper-lower)/mean)*100` rather than
the plain ratio.  (The pandas `rolling(period).std()` used by
`coinone_xrp_backtest.py` likewise defaults to the sample deviation.) -/
theorem bollinger_band_shapes (prices closes : List ℝ) (period : ℕ) (k : ℝ)
    (_hper : 0 < period) (hlen : period ≤ prices.length)
    (hper2 : 2 ≤ period) (hlen2 : period ≤ closes.length) :
    (calculate_bollinger_bands prices period k =
       some ((lastN period prices).sum / period +
               Real.sqrt (popVariance (lastN period prices)) * k,
             (lastN period prices).sum / period,
             (lastN period prices).sum / period -
               Real.sqrt (popVariance (lastN period prices)) * k)) ∧
    (∀ st, ComprehensiveAnalyzer.calculate_bollinger_bands closes period k = some st →
       st.middle_band = (lastN period closes).sum / period ∧
       st.upper_band = st.middle_band +
         Real.sqrt (sampleVariance (lastN period closes)) * k ∧
       st.lower_band = st.middle_band -
         Real.sqrt (sampleVariance (lastN period closes)) * k ∧
       (st.middle_band > 0 →
         st.band_width = ((st.upper_band - st.lower_band) / st.middle_band) * 100)) := by
  constructor
  · have hl : (lastN period prices).length = period := lastN_length _ _ hlen
    simp only [calculate_bollinger_bands, if_neg (not_lt.mpr hlen), popVariance, hl]
  · intro st hst
    have hl : (lastN period closes).length = period := lastN_length _ _ hlen2
    have h1 : 1 < (lastN period closes).length := by omega
    simp only [ComprehensiveAnalyzer.calculate_bollinger_bands,
      if_neg (not_lt.mpr hlen2), if_pos h1, Option.some.injEq] at hst
    subst hst
    refine ⟨by rw [hl], by rw [sampleVariance, hl], by rw [sampleVariance, hl], ?_⟩
    intro hm
    simp only at hm ⊢
    rw [if_pos hm]

/-- Claim C5 counterexample: on the window `[0, 2]` with `period = 2` and
multiplier 2, the population standard deviation is `1`, so the claimed
upper band would be `1 + 1 * 2 = 3`; but
`ComprehensiveAnalyzer.calculate_bollinger_bands` returns
`1 + sqrt 2 * 2` (sample standard deviation `sqrt 2`), which differs. -/
theorem bollinger_band_shapes_counterexample :
    (ComprehensiveAnalyzer.calculate_bollinger_bands [(0 : ℝ), 2] 2 2).map
        (fun st => st.upper_band) = some (1 + Real.sqrt 2 * 2) ∧
    Real.sqrt (popVariance (lastN 2 [(0 : ℝ), 2])) = 1 ∧
    (1 : ℝ) + Real.sqrt 2 * 2 ≠ 1 + 1 * 2 := by
  refine ⟨?_, ?_, ?_⟩
  · simp only [ComprehensiveAnalyzer.calculate_bollinger_bands, lastN]
    norm_num
  · have : popVariance (lastN 2 [(0 : ℝ), 2]) = 1 := by
      simp only [popVariance, lastN]
      norm_num
    rw [this, Real.sqrt_one]
  · intro h
    have h1 : Real.sqrt 2 = 1 := by linarith
    have h2 := Real.sq_sqrt (by norm_num : (0 : ℝ) ≤ 2)
    rw [h1] at h2
    norm_num at h2

/-- Concrete instance of `bollinger_band_shapes`. -/
theorem bollinger_band_shapes_witness :
    (0 < 2 ∧ 2 ≤ [(0 : ℝ), 2].length) ∧
    ((calculate_bollinger_bands [(0 : ℝ), 2] 2 2 =
       some ((lastN 2 [(0 : ℝ), 2]).sum / 2 +
               Real.sqrt (popVariance (lastN 2 [(0 : ℝ), 2])) * 2,
             (lastN 2 [(0 : ℝ), 2]).sum / 2,
             (lastN 2 [(0 : ℝ), 2]).sum / 2 -
               Real.sqrt (popVariance (lastN 2 [(0 : ℝ), 2])) * 2)) ∧
     (∀ st, ComprehensiveAnalyzer.calculate_bollinger_bands [(0 : ℝ), 2] 2 2 = some st →
       st.middle_band = (lastN 2 [(0 : ℝ), 2]).sum / 2 ∧
       st.upper_band = st.middle_band +
         Real.sqrt (sampleVariance (lastN 2 [(0 : ℝ), 2])) * 2 ∧
       st.lower_band = st.middle_band -
         Real.sqrt (sampleVariance (lastN 2 [(0 : ℝ), 2])) * 2 ∧
       (st.middle_band > 0 →
         st.band_width = ((st.upper_band - st.lower_band) / st.middle_band) * 100))) :=
  ⟨⟨by decide, by decide⟩,
   bollinger_band_shapes [(0 : ℝ), 2] [(0 : ℝ), 2] 2 2
     (by decide) (by decide) (by decide) (by decide)⟩

lemma rowPairs_take : ∀ (rows : List Row) (i : ℕ),
    (rowPairs rows).take i = rowPairs (rows.take (i + 1)) := by
  intro rows
  induction rows with
  | nil => intro i; simp [rowPairs]
  | cons x rest ih =>
      intro i
      cases rest with
      | nil =>
          cases i <;> simp [rowPairs]
      | cons y rest2 =>
          cases i with
          | zero => simp [rowPairs]
          | succ j =>
              show ((x, y) :: rowPairs (y :: rest2)).take (j + 1) =
                rowPairs (x :: y :: rest2.take j)
              rw [List.take_succ_cons, ih j]
              rfl

/-- Claim C9: no look-ahead.  Two input series that agree at all indices
`≤ i` produce identical analysis decisions at every visited index `≤ i`
(`backtest_strategy` computes every indicator from the prefix
`closes[:j+1]` only), and the combined-strategy loop over the first `i`
row pairs — the trades recorded up to index `i` — is likewise unchanged by
modifying rows at indices greater than `i`; the analysis loop visits its
indices (`range(200, n)`) in strictly increasing order exactly once. -/
theorem no_lookahead (closes1 closes2 volumes1 volumes2 : List ℝ)
    (rows1 rows2 : List Row) (cap psf fee : ℚ) (i : ℕ) :
    (closes1.take (i + 1) = closes2.take (i + 1) →
     volumes1.take (i + 1) = volumes2.take (i + 1) →
     backtestEntries closes1 volumes1 (i + 1) =
       backtestEntries closes2 volumes2 (i + 1)) ∧
    (rows1.take (i + 1) = rows2.take (i + 1) →
     runSteps (fun pr s => combinedStep psf fee pr.1 pr.2 s)
         ((rowPairs rows1).take i) ⟨cap, 0, 0⟩ [] =
       runSteps (fun pr s => combinedStep psf fee pr.1 pr.2 s)
         ((rowPairs rows2).take i) ⟨cap, 0, 0⟩ []) ∧
    List.Pairwise (· < ·) (visitedIndices (i + 1)) := by
  refine ⟨?_, ?_, ?_⟩
  · intro hc hv
    rw [backtestEntries, backtestEntries]
    apply List.filterMap_congr
    intro j hj
    rw [visitedIndices, List.mem_filter] at hj
    have hji : j < i + 1 := List.mem_range.mp hj.1
    have hc' : closes1.take (j + 1) = closes2.take (j + 1) := by
      have h1 : closes1.take (j + 1) = (closes1.take (i + 1)).take (j + 1) := by
        rw [List.take_take, min_eq_left (by omega)]
      have h2 : closes2.take (j + 1) = (closes2.take (i + 1)).take (j + 1) := by
        rw [List.take_take, min_eq_left (by omega)]
      rw [h1, h2, hc]
    have hv' : volumes1.take (j + 1) = volumes2.take (j + 1) := by
      have h1 : volumes1.take (j + 1) = (volumes1.take (i + 1)).take (j + 1) := by
        rw [List.take_take, min_eq_left (by omega)]
      have h2 : volumes2.take (j + 1) = (volumes2.take (i + 1)).take (j + 1) := by
        rw [List.take_take, min_eq_left (by omega)]
      rw [h1, h2, hv]
    rw [hc', hv']
  · intro hr
    rw [rowPairs_take rows1 i, rowPairs_take rows2 i, hr]
  · rw [visitedIndices]
    exact (List.pairwise_lt_range _).filter _

/-- Concrete instance of `no_lookahead`: the series differ only at index 2,
the rows only at index 2, and the decisions up to index 1 coincide. -/
theorem no_lookahead_witness :
    ([(1 : ℝ), 2, 3].take (1 + 1) = [(1 : ℝ), 2, 4].take (1 + 1) ∧
     [(5 : ℝ), 6, 7].take (1 + 1) = [(5 : ℝ), 6, 8].take (1 + 1) ∧
     [wRowA, wRowB, wRowC].take (1 + 1) = [wRowA, wRowB].take (1 + 1)) ∧
    (backtestEntries [(1 : ℝ), 2, 3] [(5 : ℝ), 6, 7] (1 + 1) =
       backtestEntries [(1 : ℝ), 2, 4] [(5 : ℝ), 6, 8] (1 + 1) ∧
     runSteps (fun pr s => combinedStep 1 (1 / 2) pr.1 pr.2 s)
         ((rowPairs [wRowA, wRowB, wRowC]).take 1) ⟨100, 0, 0⟩ [] =
       runSteps (fun pr s => combinedStep 1 (1 / 2) pr.1 pr.2 s)
         ((rowPairs [wRowA, wRowB]).take 1) ⟨100, 0, 0⟩ [] ∧
     List.Pairwise (· < ·) (visitedIndices (1 + 1))) := by
  have h := no_lookahead [(1 : ℝ), 2, 3] [(1 : ℝ), 2, 4] [(5 : ℝ), 6, 7]
    [(5 : ℝ), 6, 8] [wRowA, wRowB, wRowC] [wRowA, wRowB] 100 1 (1 / 2) 1
  exact ⟨⟨rfl, rfl, rfl⟩, h.1 rfl rfl, h.2.1 rfl, h.2.2⟩
